import Mathlib

/-!
Shallow embedding of the ThingHerder persistence layer (src/db.js).

The in-process document store keeps five collections (agents, projects,
collaborations, updates, comments) in one in-memory document.  JavaScript
objects keyed by freshly generated uuids are modelled as Lean lists in
insertion order (JS objects preserve insertion order for such keys, and
Object.values enumerates them in that order).  Environment-supplied values
(uuids, api keys, clock readings) are passed as explicit arguments.
ISO-8601 timestamps produced by Date.toISOString order exactly like the
instants they denote, so creation times are modelled as natural numbers and
the comparator new Date(b) - new Date(a) as comparison of those numbers.
ASCII lowercasing models String.toLowerCase.
-/

namespace TH

/-! ### Slug machinery (db.js slugify / uniqueSlug) -/

/-- Characters the regex class [a-z0-9] accepts. -/
def isSlugCh (c : Char) : Bool :=
  ('a' ≤ c && c ≤ 'z') || ('0' ≤ c && c ≤ '9')

/-- Embedding of replace(/[^a-z0-9]+/g, "-"): a maximal run of characters
outside [a-z0-9] becomes a single hyphen.  The flag records whether the scan
is currently inside such a run (the hyphen for it was already emitted). -/
def collapseGo : Bool → List Char → List Char
  | _, [] => []
  | inRun, c :: rest =>
    if isSlugCh c then c :: collapseGo false rest
    else if inRun then collapseGo true rest
    else '-' :: collapseGo true rest

/-- Embedding of replace(/^-|-$/g, ""), leading half: the anchor ^- removes
at most one leading hyphen. -/
def trimLeadOne (l : List Char) : List Char :=
  match l with
  | c :: rest => if c = '-' then rest else c :: rest
  | [] => []

/-- Embedding of replace(/^-|-$/g, ""), trailing half: the anchor -$ removes
at most one trailing hyphen. -/
def trimTrailOne (l : List Char) : List Char :=
  (trimLeadOne l.reverse).reverse

/-- db.js slugify: lowercase, collapse non-alphanumeric runs to single
hyphens, strip the leading and trailing hyphen, then substring(0, 50). -/
def slugify (t : String) : String :=
  String.mk ((trimTrailOne (trimLeadOne (collapseGo false (t.data.map Char.toLower)))).take 50)

/-- Digit character for a value below ten. -/
def digitChar (d : Nat) : Char := Char.ofNat (48 + d)

/-- Decimal digit list of a positive number; the fuel bounds the recursion
and any fuel of at least the number itself is enough. -/
def natStrGo : Nat → Nat → List Char
  | 0, _ => []
  | _ + 1, 0 => []
  | fuel + 1, m + 1 => natStrGo fuel ((m + 1) / 10) ++ [digitChar ((m + 1) % 10)]

/-- Decimal rendering of a natural number, as JS template interpolation of
the loop counter renders it. -/
def natStr (n : Nat) : String :=
  if n = 0 then "0" else String.mk (natStrGo n n)

/-- Candidate slugs tried by uniqueSlug: the base first, then base-1,
base-2, and so on. -/
def slugCand (base : String) : Nat → String
  | 0 => base
  | k + 1 => base ++ "-" ++ natStr (k + 1)

/-- The while loop of uniqueSlug, testing candidate k, then k+1, and so on;
the fuel bounds the iteration count and is proven sufficient below. -/
def uniqueSlugGo (taken : List String) (base : String) : Nat → Nat → String
  | 0, k => slugCand base k
  | fuel + 1, k =>
    if taken.contains (slugCand base k) then uniqueSlugGo taken base fuel (k + 1)
    else slugCand base k

/-- db.js uniqueSlug: starting from the base slug, append -1, -2, ... until
no existing project carries the candidate slug. -/
def uniqueSlug (base : String) (taken : List String) : String :=
  uniqueSlugGo taken base (taken.length + 1) 0

/-! ### Claim-side slug formulation

The specification describes slug derivation as: lowercase, collapse every
run of non-alphanumeric characters to a single hyphen, trim leading and
trailing hyphens, truncate to 50 characters.  The following definitions
follow those words directly: masking each non-alphanumeric character to a
hyphen and merging adjacent hyphens realises run collapsing, and dropWhile
trims all leading (resp. trailing) hyphens. -/

/-- Replace a non-alphanumeric character by a hyphen. -/
def maskCh (c : Char) : Char := if isSlugCh c then c else '-'

/-- Merge adjacent hyphens into one. -/
def squeeze : List Char → List Char
  | [] => []
  | [c] => [c]
  | a :: b :: rest =>
    if a = '-' && b = '-' then squeeze (b :: rest) else a :: squeeze (b :: rest)

/-- Spec-worded slug derivation (before collision suffixing). -/
def claimSlugify (t : String) : String :=
  String.mk
    (((((squeeze ((t.data.map Char.toLower).map maskCh)).dropWhile (· = '-')).reverse.dropWhile
      (· = '-')).reverse.take 50))

/-! ### Entity records (field names as in db.js) -/

structure Agent where
  id : String
  name : String
  display_name : String
  bio : Option String
  email : Option String
  avatar_url : Option String
  skills : List String
  api_key : String
  created_at : Nat
  updated_at : Nat
deriving DecidableEq

structure Project where
  id : String
  slug : String
  title : String
  description : Option String
  category : String
  status : String
  skills_needed : List String
  max_collaborators : Option Nat
  creator_id : String
  created_at : Nat
  updated_at : Nat
deriving DecidableEq

structure Collaboration where
  id : String
  project_id : String
  agent_id : String
  role : String
  pitch : Option String
  status : String
  joined_at : Nat
deriving DecidableEq

structure Update where
  id : String
  project_id : String
  agent_id : String
  content : String
  created_at : Nat
deriving DecidableEq

structure Comment where
  id : String
  project_id : String
  agent_id : String
  content : String
  created_at : Nat
deriving DecidableEq

/-- The in-memory document: five collections in insertion order. -/
structure DB where
  agents : List Agent
  projects : List Project
  collaborations : List Collaboration
  updates : List Update
  comments : List Comment
deriving DecidableEq

/-- The freshly initialised document. -/
def emptyDB : DB := ⟨[], [], [], [], []⟩

/-! ### Caller-supplied field sets

Optional caller fields are Option values; the JS idiom value || fallback
treats the empty string (and zero) as absent, which the helpers below
reproduce. -/

/-- JS x || null for string fields: undefined and the empty string give
null. -/
def strOrNull : Option String → Option String
  | none => none
  | some s => if s = "" then none else some s

/-- JS x || dflt for string fields with a string fallback. -/
def strOrDefault (o : Option String) (dflt : String) : String :=
  match o with
  | none => dflt
  | some s => if s = "" then dflt else s

/-- JS x || null for numeric fields: undefined and zero give null. -/
def natOrNull : Option Nat → Option Nat
  | none => none
  | some n => if n = 0 then none else some n

structure AgentData where
  name : String
  displayName : String
  bio : Option String
  email : Option String
  avatarUrl : Option String
  skills : Option (List String)

structure ProjectData where
  title : String
  description : Option String
  category : Option String
  skillsNeeded : Option (List String)
  maxCollaborators : Option Nat
  creatorId : String

structure CollaborationData where
  projectId : String
  agentId : String
  role : Option String
  pitch : Option String
  status : Option String

structure UpdateData where
  projectId : String
  agentId : String
  content : String

structure CommentData where
  projectId : String
  agentId : String
  content : String

/-! ### Partial-update field sets (Object.assign patches)

Object.assign(record, data, ...) overwrites any field data carries.  A
patch therefore holds one Option per record field; none leaves the field
alone.  The id key of a record is what the collection is indexed by and is
never reassigned by the server, so it is not part of a patch. -/

structure AgentPatch where
  display_name : Option String := none
  bio : Option (Option String) := none
  email : Option (Option String) := none
  avatar_url : Option (Option String) := none
  skills : Option (List String) := none

structure ProjectPatch where
  slug : Option String := none
  title : Option String := none
  description : Option (Option String) := none
  category : Option String := none
  status : Option String := none
  skills_needed : Option (List String) := none
  max_collaborators : Option (Option Nat) := none
  creator_id : Option String := none

structure CollaborationPatch where
  role : Option String := none
  pitch : Option (Option String) := none
  status : Option String := none

/-! ### Agent operations -/

/-- agents.create: unconditionally inserts a fresh record built from the
caller data, the generated id and api key, and the clock reading. -/
def agentsCreate (db : DB) (d : AgentData) (id apiKey : String) (now : Nat) :
    Agent × DB :=
  let a : Agent :=
    { id := id
      name := d.name
      display_name := d.displayName
      bio := strOrNull d.bio
      email := strOrNull d.email
      avatar_url := strOrNull d.avatarUrl
      skills := d.skills.getD []
      api_key := apiKey
      created_at := now
      updated_at := now }
  (a, { db with agents := db.agents ++ [a] })

/-- agents.findById: lookup of the record stored under the id key. -/
def agentsFindById (db : DB) (id : String) : Option Agent :=
  db.agents.find? (fun a => a.id == id)

/-- agents.nameExists: case-insensitive existence check on names. -/
def agentsNameExists (db : DB) (name : String) : Bool :=
  db.agents.any (fun a => a.name.map Char.toLower == name.map Char.toLower)

/-- Object.assign(agent, data, updated_at) for the found record. -/
def applyAgentPatch (a : Agent) (p : AgentPatch) (now : Nat) : Agent :=
  { a with
    display_name := p.display_name.getD a.display_name
    bio := p.bio.getD a.bio
    email := p.email.getD a.email
    avatar_url := p.avatar_url.getD a.avatar_url
    skills := p.skills.getD a.skills
    updated_at := now }

/-- agents.update: merge the patch into the record under the id, refreshing
updated_at; leaves the store unchanged when the id is unknown. -/
def agentsUpdate (db : DB) (id : String) (p : AgentPatch) (now : Nat) : DB :=
  { db with agents := db.agents.map (fun a => if a.id = id then applyAgentPatch a p now else a) }

/-! ### Project operations -/

/-- The slug column of the project collection. -/
def projectSlugs (db : DB) : List String := db.projects.map (fun p => p.slug)

/-- projects.create: derives the unique slug from the title, fills defaults
(category other, status seeking), inserts and returns the record. -/
def projectsCreate (db : DB) (d : ProjectData) (id : String) (now : Nat) :
    Project × DB :=
  let p : Project :=
    { id := id
      slug := uniqueSlug (slugify d.title) (projectSlugs db)
      title := d.title
      description := strOrNull d.description
      category := strOrDefault d.category "other"
      status := "seeking"
      skills_needed := d.skillsNeeded.getD []
      max_collaborators := natOrNull d.maxCollaborators
      creator_id := d.creatorId
      created_at := now
      updated_at := now }
  (p, { db with projects := db.projects ++ [p] })

/-- projects.findById. -/
def projectsFindById (db : DB) (id : String) : Option Project :=
  db.projects.find? (fun p => p.id == id)

/-- projects.findBySlug. -/
def projectsFindBySlug (db : DB) (slug : String) : Option Project :=
  db.projects.find? (fun p => p.slug == slug)

/-- Object.assign(project, data, updated_at) for the found record. -/
def applyProjectPatch (p : Project) (d : ProjectPatch) (now : Nat) : Project :=
  { p with
    slug := d.slug.getD p.slug
    title := d.title.getD p.title
    description := d.description.getD p.description
    category := d.category.getD p.category
    status := d.status.getD p.status
    skills_needed := d.skills_needed.getD p.skills_needed
    max_collaborators := d.max_collaborators.getD p.max_collaborators
    creator_id := d.creator_id.getD p.creator_id
    updated_at := now }

/-- projects.update: merge the patch into the record under the id. -/
def projectsUpdate (db : DB) (id : String) (d : ProjectPatch) (now : Nat) : DB :=
  { db with projects := db.projects.map (fun p => if p.id = id then applyProjectPatch p d now else p) }

/-- projects.delete: drops the record under the id and cascades over the
three dependent collections, removing exactly the rows whose project_id
equals the deleted id. -/
def projectsDelete (db : DB) (id : String) : DB :=
  { db with
    projects := db.projects.filter (fun p => !(p.id == id))
    collaborations := db.collaborations.filter (fun c => !(c.project_id == id))
    updates := db.updates.filter (fun u => !(u.project_id == id))
    comments := db.comments.filter (fun c => !(c.project_id == id)) }

/-! ### Project listing -/

/-- Query filters of projects.findAll.  A JS truthiness test guards each
one, so an empty string (and a zero limit) behaves as if absent. -/
structure FindFilters where
  category : Option String := none
  status : Option String := none
  skill : Option String := none
  limit : Option Nat := none

/-- Newest-created-first comparator on projects, as the comparator
new Date(b.created_at) - new Date(a.created_at) sorts. -/
def projDesc (a b : Project) : Prop := b.created_at ≤ a.created_at

instance : DecidableRel projDesc := fun a b =>
  inferInstanceAs (Decidable (b.created_at ≤ a.created_at))

instance : IsTotal Project projDesc := ⟨fun a b => Nat.le_total b.created_at a.created_at⟩

instance : IsTrans Project projDesc := ⟨fun _ _ _ h1 h2 => Nat.le_trans h2 h1⟩

/-- Newest-first comparator on update rows. -/
def updDesc (a b : Update) : Prop := b.created_at ≤ a.created_at

instance : DecidableRel updDesc := fun a b =>
  inferInstanceAs (Decidable (b.created_at ≤ a.created_at))

instance : IsTotal Update updDesc := ⟨fun a b => Nat.le_total b.created_at a.created_at⟩

instance : IsTrans Update updDesc := ⟨fun _ _ _ h1 h2 => Nat.le_trans h2 h1⟩

/-- Oldest-first comparator on comment rows. -/
def comAsc (a b : Comment) : Prop := a.created_at ≤ b.created_at

instance : DecidableRel comAsc := fun a b =>
  inferInstanceAs (Decidable (a.created_at ≤ b.created_at))

instance : IsTotal Comment comAsc := ⟨fun a b => Nat.le_total a.created_at b.created_at⟩

instance : IsTrans Comment comAsc := ⟨fun _ _ _ h1 h2 => Nat.le_trans h1 h2⟩

/-- projects.findAll: optional category, status (comma-separated set, the
set seeking,in-progress when absent), and skill filters, then the
newest-created-first sort, then the optional limit truncation.  The JS
truthiness guards make an empty filter string and a zero limit inert. -/
def projectsFindAll (db : DB) (f : FindFilters) : List Project :=
  let r1 : List Project := match f.category with
    | some c => if c = "" then db.projects else db.projects.filter (fun p => p.category == c)
    | none => db.projects
  let r2 : List Project := match f.status with
    | some s =>
      if s = "" then r1.filter (fun p => (["seeking", "in-progress"] : List String).contains p.status)
      else r1.filter (fun p => (s.splitOn ",").contains p.status)
    | none => r1.filter (fun p => (["seeking", "in-progress"] : List String).contains p.status)
  let r3 : List Project := match f.skill with
    | some sk => if sk = "" then r2 else r2.filter (fun p => p.skills_needed.contains sk)
    | none => r2
  let sorted := r3.insertionSort projDesc
  match f.limit with
  | some n => if n = 0 then sorted else sorted.take n
  | none => sorted

/-! ### Collaboration operations -/

/-- collaborations.create: inserts with defaults role collaborator and
status pending. -/
def collaborationsCreate (db : DB) (d : CollaborationData) (id : String) (now : Nat) :
    Collaboration × DB :=
  let c : Collaboration :=
    { id := id
      project_id := d.projectId
      agent_id := d.agentId
      role := strOrDefault d.role "collaborator"
      pitch := strOrNull d.pitch
      status := strOrDefault d.status "pending"
      joined_at := now }
  (c, { db with collaborations := db.collaborations ++ [c] })

/-- Lookup of the record stored under the id key of the collaboration
collection (the access db.collaborations[id] of collaborations.update). -/
def collaborationsFindById (db : DB) (id : String) : Option Collaboration :=
  db.collaborations.find? (fun c => c.id == id)

/-- Lookup of the record stored under the id key of the update collection. -/
def updatesFindById (db : DB) (id : String) : Option Update :=
  db.updates.find? (fun u => u.id == id)

/-- Lookup of the record stored under the id key of the comment collection. -/
def commentsFindById (db : DB) (id : String) : Option Comment :=
  db.comments.find? (fun c => c.id == id)

/-- collaborations.findByProjectAndAgent. -/
def collaborationsFindByProjectAndAgent (db : DB) (projectId agentId : String) :
    Option Collaboration :=
  db.collaborations.find? (fun c => c.project_id == projectId && c.agent_id == agentId)

/-- Object.assign(collab, data); no timestamp refresh at this collection. -/
def applyCollaborationPatch (c : Collaboration) (p : CollaborationPatch) : Collaboration :=
  { c with
    role := p.role.getD c.role
    pitch := p.pitch.getD c.pitch
    status := p.status.getD c.status }

/-- collaborations.update. -/
def collaborationsUpdate (db : DB) (id : String) (p : CollaborationPatch) : DB :=
  { db with
    collaborations :=
      db.collaborations.map (fun c => if c.id = id then applyCollaborationPatch c p else c) }

/-- collaborations.delete: resolves the (projectId, agentId) pair and
removes that single record; no-op when absent. -/
def collaborationsDelete (db : DB) (projectId agentId : String) : DB :=
  match collaborationsFindByProjectAndAgent db projectId agentId with
  | some c => { db with collaborations := db.collaborations.filter (fun x => !(x.id == c.id)) }
  | none => db

/-! ### Update and comment operations -/

/-- updates.create. -/
def updatesCreate (db : DB) (d : UpdateData) (id : String) (now : Nat) : Update × DB :=
  let u : Update :=
    { id := id, project_id := d.projectId, agent_id := d.agentId, content := d.content
      created_at := now }
  (u, { db with updates := db.updates ++ [u] })

/-- updates.findByProject: the rows of the project, newest first. -/
def updatesFindByProject (db : DB) (projectId : String) : List Update :=
  (db.updates.filter (fun u => u.project_id == projectId)).insertionSort updDesc

/-- comments.create. -/
def commentsCreate (db : DB) (d : CommentData) (id : String) (now : Nat) : Comment × DB :=
  let c : Comment :=
    { id := id, project_id := d.projectId, agent_id := d.agentId, content := d.content
      created_at := now }
  (c, { db with comments := db.comments ++ [c] })

/-- comments.findByProject: the rows of the project, oldest first. -/
def commentsFindByProject (db : DB) (projectId : String) : List Comment :=
  (db.comments.filter (fun c => c.project_id == projectId)).insertionSort comAsc

/-! ### Reachability -/

/-- Slug uniqueness across the whole project collection. -/
def slugsUnique (db : DB) : Prop := (projectSlugs db).Nodup

instance : DecidablePred slugsUnique := fun db =>
  inferInstanceAs (Decidable (projectSlugs db).Nodup)

/-- Store states reachable from the fresh document by any sequence of
mutating collection operations.  Generated ids are fresh within their
collection, mirroring uuid generation. -/
inductive Reach : DB → Prop
  | init : Reach emptyDB
  | acreate {db} (d : AgentData) (id apiKey : String) (now : Nat) :
      Reach db → id ∉ db.agents.map Agent.id → Reach (agentsCreate db d id apiKey now).2
  | aupdate {db} (id : String) (p : AgentPatch) (now : Nat) :
      Reach db → Reach (agentsUpdate db id p now)
  | pcreate {db} (d : ProjectData) (id : String) (now : Nat) :
      Reach db → id ∉ db.projects.map Project.id → Reach (projectsCreate db d id now).2
  | pupdate {db} (id : String) (d : ProjectPatch) (now : Nat) :
      Reach db → Reach (projectsUpdate db id d now)
  | pdelete {db} (id : String) : Reach db → Reach (projectsDelete db id)
  | ccreate {db} (d : CollaborationData) (id : String) (now : Nat) :
      Reach db → id ∉ db.collaborations.map Collaboration.id →
      Reach (collaborationsCreate db d id now).2
  | cupdate {db} (id : String) (p : CollaborationPatch) :
      Reach db → Reach (collaborationsUpdate db id p)
  | cdelete {db} (projectId agentId : String) :
      Reach db → Reach (collaborationsDelete db projectId agentId)
  | ucreate {db} (d : UpdateData) (id : String) (now : Nat) :
      Reach db → id ∉ db.updates.map Update.id → Reach (updatesCreate db d id now).2
  | comcreate {db} (d : CommentData) (id : String) (now : Nat) :
      Reach db → id ∉ db.comments.map Comment.id → Reach (commentsCreate db d id now).2

/-- Reachability restricted to runs in which no projects.update patch
carries a slug field; every other operation is unrestricted. -/
inductive ReachKeepSlug : DB → Prop
  | init : ReachKeepSlug emptyDB
  | acreate {db} (d : AgentData) (id apiKey : String) (now : Nat) :
      ReachKeepSlug db → id ∉ db.agents.map Agent.id →
      ReachKeepSlug (agentsCreate db d id apiKey now).2
  | aupdate {db} (id : String) (p : AgentPatch) (now : Nat) :
      ReachKeepSlug db → ReachKeepSlug (agentsUpdate db id p now)
  | pcreate {db} (d : ProjectData) (id : String) (now : Nat) :
      ReachKeepSlug db → id ∉ db.projects.map Project.id →
      ReachKeepSlug (projectsCreate db d id now).2
  | pupdate {db} (id : String) (d : ProjectPatch) (now : Nat) :
      ReachKeepSlug db → d.slug = none → ReachKeepSlug (projectsUpdate db id d now)
  | pdelete {db} (id : String) : ReachKeepSlug db → ReachKeepSlug (projectsDelete db id)
  | ccreate {db} (d : CollaborationData) (id : String) (now : Nat) :
      ReachKeepSlug db → id ∉ db.collaborations.map Collaboration.id →
      ReachKeepSlug (collaborationsCreate db d id now).2
  | cupdate {db} (id : String) (p : CollaborationPatch) :
      ReachKeepSlug db → ReachKeepSlug (collaborationsUpdate db id p)
  | cdelete {db} (projectId agentId : String) :
      ReachKeepSlug db → ReachKeepSlug (collaborationsDelete db projectId agentId)
  | ucreate {db} (d : UpdateData) (id : String) (now : Nat) :
      ReachKeepSlug db → id ∉ db.updates.map Update.id →
      ReachKeepSlug (updatesCreate db d id now).2
  | comcreate {db} (d : CommentData) (id : String) (now : Nat) :
      ReachKeepSlug db → id ∉ db.comments.map Comment.id →
      ReachKeepSlug (commentsCreate db d id now).2

/-! ### Persistence (save / load round trip)

save serialises the whole document with JSON.stringify; loading parses it
back.  The JSON value grammar below covers everything the document
contains (all numbers in it are naturals).  Each record serialises to an
object carrying exactly the fields of the record under their db.js names;
each collection serialises to an object mapping record id to record. -/

inductive Json where
  | null : Json
  | str : String → Json
  | num : Nat → Json
  | arr : List Json → Json
  | obj : List (String × Json) → Json

/-- Nullable string field. -/
def encOptStr : Option String → Json
  | none => Json.null
  | some s => Json.str s

def decOptStr : Json → Option (Option String)
  | Json.null => some none
  | Json.str s => some (some s)
  | _ => none

/-- Nullable numeric field. -/
def encOptNat : Option Nat → Json
  | none => Json.null
  | some n => Json.num n

def decOptNat : Json → Option (Option Nat)
  | Json.null => some none
  | Json.num n => some (some n)
  | _ => none

/-- String-array field. -/
def encStrList (l : List String) : Json := Json.arr (l.map Json.str)

def decStrListGo : List Json → Option (List String)
  | [] => some []
  | Json.str s :: rest => (decStrListGo rest).map (fun l => s :: l)
  | _ => none

def decStrList : Json → Option (List String)
  | Json.arr js => decStrListGo js
  | _ => none

/-- Field lookup in a serialised object. -/
def getField : List (String × Json) → String → Option Json
  | [], _ => none
  | (k, v) :: rest, key => if k = key then some v else getField rest key

def encodeAgent (a : Agent) : Json :=
  Json.obj
    [("id", Json.str a.id), ("name", Json.str a.name),
     ("display_name", Json.str a.display_name), ("bio", encOptStr a.bio),
     ("email", encOptStr a.email), ("avatar_url", encOptStr a.avatar_url),
     ("skills", encStrList a.skills), ("api_key", Json.str a.api_key),
     ("created_at", Json.num a.created_at), ("updated_at", Json.num a.updated_at)]

def decodeAgent : Json → Option Agent
  | Json.obj fs =>
    match getField fs "id", getField fs "name", getField fs "display_name",
        getField fs "bio", getField fs "email", getField fs "avatar_url",
        getField fs "skills", getField fs "api_key", getField fs "created_at",
        getField fs "updated_at" with
    | some (Json.str id), some (Json.str name), some (Json.str dn), some bioJ, some emailJ,
        some avJ, some skJ, some (Json.str key), some (Json.num ca), some (Json.num ua) =>
      match decOptStr bioJ, decOptStr emailJ, decOptStr avJ, decStrList skJ with
      | some bio, some email, some av, some sk =>
        some ⟨id, name, dn, bio, email, av, sk, key, ca, ua⟩
      | _, _, _, _ => none
    | _, _, _, _, _, _, _, _, _, _ => none
  | _ => none

def encodeProject (p : Project) : Json :=
  Json.obj
    [("id", Json.str p.id), ("slug", Json.str p.slug), ("title", Json.str p.title),
     ("description", encOptStr p.description), ("category", Json.str p.category),
     ("status", Json.str p.status), ("skills_needed", encStrList p.skills_needed),
     ("max_collaborators", encOptNat p.max_collaborators),
     ("creator_id", Json.str p.creator_id), ("created_at", Json.num p.created_at),
     ("updated_at", Json.num p.updated_at)]

def decodeProject : Json → Option Project
  | Json.obj fs =>
    match getField fs "id", getField fs "slug", getField fs "title",
        getField fs "description", getField fs "category", getField fs "status",
        getField fs "skills_needed", getField fs "max_collaborators",
        getField fs "creator_id", getField fs "created_at", getField fs "updated_at" with
    | some (Json.str id), some (Json.str slug), some (Json.str title), some deJ,
        some (Json.str cat), some (Json.str st), some skJ, some mcJ,
        some (Json.str crid), some (Json.num ca), some (Json.num ua) =>
      match decOptStr deJ, decStrList skJ, decOptNat mcJ with
      | some de, some sk, some mc => some ⟨id, slug, title, de, cat, st, sk, mc, crid, ca, ua⟩
      | _, _, _ => none
    | _, _, _, _, _, _, _, _, _, _, _ => none
  | _ => none

def encodeCollaboration (c : Collaboration) : Json :=
  Json.obj
    [("id", Json.str c.id), ("project_id", Json.str c.project_id),
     ("agent_id", Json.str c.agent_id), ("role", Json.str c.role),
     ("pitch", encOptStr c.pitch), ("status", Json.str c.status),
     ("joined_at", Json.num c.joined_at)]

def decodeCollaboration : Json → Option Collaboration
  | Json.obj fs =>
    match getField fs "id", getField fs "project_id", getField fs "agent_id",
        getField fs "role", getField fs "pitch", getField fs "status",
        getField fs "joined_at" with
    | some (Json.str id), some (Json.str pid), some (Json.str aid), some (Json.str role),
        some piJ, some (Json.str st), some (Json.num ja) =>
      match decOptStr piJ with
      | some pi => some ⟨id, pid, aid, role, pi, st, ja⟩
      | none => none
    | _, _, _, _, _, _, _ => none
  | _ => none

def encodeUpdate (u : Update) : Json :=
  Json.obj
    [("id", Json.str u.id), ("project_id", Json.str u.project_id),
     ("agent_id", Json.str u.agent_id), ("content", Json.str u.content),
     ("created_at", Json.num u.created_at)]

def decodeUpdate : Json → Option Update
  | Json.obj fs =>
    match getField fs "id", getField fs "project_id", getField fs "agent_id",
        getField fs "content", getField fs "created_at" with
    | some (Json.str id), some (Json.str pid), some (Json.str aid), some (Json.str co),
        some (Json.num ca) => some ⟨id, pid, aid, co, ca⟩
    | _, _, _, _, _ => none
  | _ => none

def encodeComment (c : Comment) : Json :=
  Json.obj
    [("id", Json.str c.id), ("project_id", Json.str c.project_id),
     ("agent_id", Json.str c.agent_id), ("content", Json.str c.content),
     ("created_at", Json.num c.created_at)]

def decodeComment : Json → Option Comment
  | Json.obj fs =>
    match getField fs "id", getField fs "project_id", getField fs "agent_id",
        getField fs "content", getField fs "created_at" with
    | some (Json.str id), some (Json.str pid), some (Json.str aid), some (Json.str co),
        some (Json.num ca) => some ⟨id, pid, aid, co, ca⟩
    | _, _, _, _, _ => none
  | _ => none

/-- Decode the values of a serialised id-to-record mapping, in order. -/
def decodeEntries (dec : Json → Option α) : List (String × Json) → Option (List α)
  | [] => some []
  | (_, j) :: rest =>
    match dec j, decodeEntries dec rest with
    | some a, some l => some (a :: l)
    | _, _ => none

/-- save: serialise the whole document. -/
def encodeDB (db : DB) : Json :=
  Json.obj
    [("agents", Json.obj (db.agents.map (fun a => (a.id, encodeAgent a)))),
     ("projects", Json.obj (db.projects.map (fun p => (p.id, encodeProject p)))),
     ("collaborations",
      Json.obj (db.collaborations.map (fun c => (c.id, encodeCollaboration c)))),
     ("updates", Json.obj (db.updates.map (fun u => (u.id, encodeUpdate u)))),
     ("comments", Json.obj (db.comments.map (fun c => (c.id, encodeComment c))))]

/-- load: parse the persisted document back into the in-memory one. -/
def decodeDB : Json → Option DB
  | Json.obj fs =>
    match getField fs "agents", getField fs "projects", getField fs "collaborations",
        getField fs "updates", getField fs "comments" with
    | some (Json.obj ags), some (Json.obj prs), some (Json.obj cls), some (Json.obj ups),
        some (Json.obj cms) =>
      match decodeEntries decodeAgent ags, decodeEntries decodeProject prs,
          decodeEntries decodeCollaboration cls, decodeEntries decodeUpdate ups,
          decodeEntries decodeComment cms with
      | some a, some p, some c, some u, some cm => some ⟨a, p, c, u, cm⟩
      | _, _, _, _, _ => none
    | _, _, _, _, _ => none
  | _ => none

/-! ### Value helpers used by the proofs about decimal rendering -/

/-- Numeric value of a digit character. -/
def chVal (c : Char) : Nat := c.toNat - 48

/-- Value of a digit string read in base ten. -/
def strVal (l : List Char) : Nat := l.foldl (fun acc c => 10 * acc + chVal c) 0

/-! ### Concrete states used by counterexamples and witnesses -/

def c1DataA : ProjectData := ⟨"a", none, none, none, none, "creator"⟩

def c1DataB : ProjectData := ⟨"b", none, none, none, none, "creator"⟩

/-- A partial update whose fields consist of a slug. -/
def c1Patch : ProjectPatch := { slug := some "a" }

/-- Create project a, create project b, then patch the slug of the second
to the slug of the first through projects.update. -/
def c1DB : DB :=
  projectsUpdate (projectsCreate (projectsCreate emptyDB c1DataA "p1" 0).2 c1DataB "p2" 1).2
    "p2" c1Patch 2

def c4Proj1 : Project := ⟨"p1", "s1", "t1", none, "other", "seeking", [], none, "c", 0, 0⟩

def c4Proj2 : Project := ⟨"p2", "s2", "t2", none, "other", "completed", [], none, "c", 5, 5⟩

def c4Proj3 : Project := ⟨"p3", "s3", "t3", none, "other", "in-progress", [], none, "c", 3, 3⟩

def c4DB : DB := { emptyDB with projects := [c4Proj1, c4Proj2, c4Proj3] }

def c5Proj : Project := ⟨"p1", "s1", "t1", none, "other", "seeking", [], none, "c", 0, 0⟩

def c5DB : DB := { emptyDB with projects := [c5Proj] }

def c9Proj1 : Project := ⟨"p1", "", "!", none, "other", "seeking", [], none, "c", 0, 0⟩

def c9Proj2 : Project := ⟨"p2", "-1", "!!", none, "other", "seeking", [], none, "c", 1, 1⟩

def c9DB : DB := { emptyDB with projects := [c9Proj1, c9Proj2] }

/-! ## Lemmas: decimal rendering and candidate slugs -/

theorem contains_eq_true_iff {l : List String} {s : String} :
    l.contains s = true ↔ s ∈ l := by
  simp [List.contains, List.elem_iff]

theorem chVal_digitChar {d : Nat} (h : d < 10) : chVal (digitChar d) = d := by
  have : ∀ e, e < 10 → chVal (digitChar e) = e := by decide
  exact this d h

theorem strVal_append_digit (l : List Char) (c : Char) :
    strVal (l ++ [c]) = 10 * strVal l + chVal c := by
  simp [strVal, List.foldl_append]

theorem natStrGo_val : ∀ fuel n, n ≤ fuel → strVal (natStrGo fuel n) = n := by
  intro fuel
  induction fuel with
  | zero =>
    intro n hn
    interval_cases n
    simp [natStrGo, strVal]
  | succ fuel ih =>
    intro n hn
    match n with
    | 0 => simp [natStrGo, strVal]
    | m + 1 =>
      have hdiv : (m + 1) / 10 ≤ fuel := by
        have h1 : (m + 1) / 10 < m + 1 := Nat.div_lt_self (Nat.succ_pos m) (by omega)
        omega
      rw [natStrGo, strVal_append_digit, ih _ hdiv, chVal_digitChar (Nat.mod_lt _ (by omega))]
      omega

theorem natStr_val (n : Nat) : strVal (natStr n).data = n := by
  match n with
  | 0 => decide
  | m + 1 =>
    have : natStr (m + 1) = String.mk (natStrGo (m + 1) (m + 1)) := by
      simp [natStr]
    rw [this]
    exact natStrGo_val _ _ (Nat.le_refl _)

theorem natStr_inj {a b : Nat} (h : natStr a = natStr b) : a = b := by
  have := congrArg (fun s => strVal s.data) h
  simpa [natStr_val] using this

theorem slugCand_inj {base : String} : ∀ {i j : Nat}, slugCand base i = slugCand base j → i = j := by
  have hlen : ∀ k : Nat, (slugCand base (k + 1)).length = base.length + 1 + (natStr (k + 1)).length := by
    intro k
    have hone : ("-" : String).length = 1 := rfl
    simp [slugCand, String.length_append, hone]
  intro i j h
  match i, j with
  | 0, 0 => rfl
  | 0, k + 1 =>
    exfalso
    have h0 : (slugCand base 0).length = base.length := rfl
    have hne : (natStr (k + 1)).length ≥ 0 := Nat.zero_le _
    have := congrArg String.length h
    rw [h0, hlen k] at this
    omega
  | k + 1, 0 =>
    exfalso
    have h0 : (slugCand base 0).length = base.length := rfl
    have := congrArg String.length h
    rw [h0, hlen k] at this
    omega
  | i + 1, j + 1 =>
    have hd := congrArg String.data h
    simp only [slugCand, String.data_append] at hd
    rw [List.append_assoc, List.append_assoc] at hd
    have hd2 := List.append_cancel_left hd
    have hd3 := List.append_cancel_left hd2
    have : strVal (natStr (i + 1)).data = strVal (natStr (j + 1)).data := by rw [hd3]
    rw [natStr_val, natStr_val] at this
    omega

theorem exists_free_cand (base : String) (taken : List String) :
    ∃ j, j ≤ taken.length ∧ slugCand base j ∉ taken := by
  by_contra hall
  push_neg at hall
  set n := taken.length with hn
  have hinj : Function.Injective (fun j : Fin (n + 1) => slugCand base j.1) := by
    intro a b hab
    exact Fin.val_injective (slugCand_inj hab)
  have hcard : (Finset.image (fun j : Fin (n + 1) => slugCand base j.1) Finset.univ).card
      = n + 1 := by
    rw [Finset.card_image_of_injective _ hinj, Finset.card_univ, Fintype.card_fin]
  have hsub : Finset.image (fun j : Fin (n + 1) => slugCand base j.1) Finset.univ
      ⊆ taken.toFinset := by
    intro s hs
    rcases Finset.mem_image.1 hs with ⟨j, _, rfl⟩
    exact List.mem_toFinset.2 (hall j.1 (Nat.lt_succ_iff.1 j.2))
  have h1 : n + 1 ≤ taken.toFinset.card := hcard ▸ Finset.card_le_card hsub
  have h2 : taken.toFinset.card ≤ n := List.toFinset_card_le taken
  omega

theorem uniqueSlugGo_spec (taken : List String) (base : String) :
    ∀ fuel k, (∃ j, j < fuel ∧ slugCand base (k + j) ∉ taken) →
    ∃ m, uniqueSlugGo taken base fuel k = slugCand base (k + m) ∧
      slugCand base (k + m) ∉ taken ∧ ∀ i < m, slugCand base (k + i) ∈ taken := by
  intro fuel
  induction fuel with
  | zero =>
    intro k h
    rcases h with ⟨j, hj, _⟩
    omega
  | succ fuel ih =>
    intro k h
    by_cases hc : taken.contains (slugCand base k) = true
    · have hmem : slugCand base k ∈ taken := contains_eq_true_iff.1 hc
      have hnext : ∃ j, j < fuel ∧ slugCand base (k + 1 + j) ∉ taken := by
        rcases h with ⟨j, hj, hfree⟩
        match j with
        | 0 => exact absurd hmem (by simpa using hfree)
        | j + 1 => exact ⟨j, by omega, by have : k + (j + 1) = k + 1 + j := by omega
                                          rwa [this] at hfree⟩
      rcases ih (k + 1) hnext with ⟨m, heq, hfree, hall⟩
      refine ⟨m + 1, ?_, ?_, ?_⟩
      · rw [uniqueSlugGo, if_pos hc, heq]
        congr 1
        omega
      · have : k + (m + 1) = k + 1 + m := by omega
        rwa [this]
      · intro i hi
        match i with
        | 0 => simpa using hmem
        | i + 1 =>
          have : k + (i + 1) = k + 1 + i := by omega
          rw [this]
          exact hall i (by omega)
    · refine ⟨0, ?_, ?_, ?_⟩
      · rw [uniqueSlugGo, if_neg hc, Nat.add_zero]
      · intro hm
        exact hc (contains_eq_true_iff.2 (by simpa using hm))
      · intro i hi
        omega

theorem uniqueSlug_spec (base : String) (taken : List String) :
    ∃ m, uniqueSlug base taken = slugCand base m ∧ slugCand base m ∉ taken ∧
      ∀ i < m, slugCand base i ∈ taken := by
  rcases exists_free_cand base taken with ⟨j, hj, hfree⟩
  rcases uniqueSlugGo_spec taken base (taken.length + 1) 0 ⟨j, by omega, by simpa using hfree⟩
    with ⟨m, heq, hfreem, hall⟩
  exact ⟨m, by simpa using heq, by simpa using hfreem, by simpa using hall⟩

theorem uniqueSlug_not_taken (base : String) (taken : List String) :
    uniqueSlug base taken ∉ taken := by
  rcases uniqueSlug_spec base taken with ⟨m, heq, hfree, _⟩
  rw [heq]
  exact hfree

theorem uniqueSlug_eq_of_first_free {base : String} {taken : List String} {n : Nat}
    (hall : ∀ i < n, slugCand base i ∈ taken) (hfree : slugCand base n ∉ taken) :
    uniqueSlug base taken = slugCand base n := by
  rcases uniqueSlug_spec base taken with ⟨m, heq, hfreem, hallm⟩
  have hmn : m = n := by
    rcases Nat.lt_trichotomy m n with h | h | h
    · exact absurd (hall m h) hfreem
    · exact h
    · exact absurd (hallm n h) hfree
  rw [heq, hmn]

/-! ## Lemmas: run collapsing equals mask-then-merge -/

theorem isSlugCh_ne_hyphen {c : Char} (h : isSlugCh c = true) : c ≠ '-' := by
  intro he
  subst he
  exact absurd h (by decide)

theorem maskCh_of_slug {c : Char} (h : isSlugCh c = true) : maskCh c = c := by
  simp [maskCh, h]

theorem maskCh_of_not_slug {c : Char} (h : isSlugCh c = false) : maskCh c = '-' := by
  simp [maskCh, h]

theorem squeeze_hyphen_cons (m : List Char) :
    squeeze ('-' :: m) = '-' :: squeeze (m.dropWhile (· = '-')) := by
  induction m with
  | nil => rfl
  | cons b r ih =>
    by_cases hb : b = '-'
    · subst hb
      have h1 : squeeze ('-' :: '-' :: r) = squeeze ('-' :: r) := by
        rw [squeeze]
        simp
      rw [h1, ih, List.dropWhile_cons_of_pos (by simp)]
    · rw [squeeze, if_neg (by simp [hb]), List.dropWhile_cons_of_neg (by simp [hb])]

theorem squeeze_cons_of_ne {a : Char} (m : List Char) (ha : a ≠ '-') :
    squeeze (a :: m) = a :: squeeze m := by
  cases m with
  | nil => rfl
  | cons b r => rw [squeeze, if_neg (by simp [ha])]

theorem collapseGo_cons_slug {c : Char} {rest : List Char} (b : Bool) (hc : isSlugCh c = true) :
    collapseGo b (c :: rest) = c :: collapseGo false rest := by
  cases b <;> simp [collapseGo, hc]

theorem collapseGo_cons_bad_true {c : Char} {rest : List Char} (hc : isSlugCh c = false) :
    collapseGo true (c :: rest) = collapseGo true rest := by
  simp [collapseGo, hc]

theorem collapseGo_cons_bad_false {c : Char} {rest : List Char} (hc : isSlugCh c = false) :
    collapseGo false (c :: rest) = '-' :: collapseGo true rest := by
  simp [collapseGo, hc]

theorem collapseGo_true_eq (l : List Char) :
    collapseGo true l = collapseGo false (l.dropWhile (fun c => !isSlugCh c)) := by
  induction l with
  | nil => rfl
  | cons c rest ih =>
    by_cases hc : isSlugCh c = true
    · rw [collapseGo_cons_slug true hc, List.dropWhile_cons_of_neg (by simp [hc]),
        collapseGo_cons_slug false hc]
    · have hc2 : isSlugCh c = false := by simpa using hc
      rw [collapseGo_cons_bad_true hc2, List.dropWhile_cons_of_pos (by simp [hc2]), ih]

theorem dropWhile_map_maskCh (l : List Char) :
    (l.map maskCh).dropWhile (· = '-') = (l.dropWhile (fun c => !isSlugCh c)).map maskCh := by
  induction l with
  | nil => rfl
  | cons c rest ih =>
    by_cases hc : isSlugCh c = true
    · rw [List.map_cons, maskCh_of_slug hc,
        List.dropWhile_cons_of_neg (by simpa using isSlugCh_ne_hyphen hc),
        List.dropWhile_cons_of_neg (by simp [hc]), List.map_cons, maskCh_of_slug hc]
    · have hc2 : isSlugCh c = false := by simpa using hc
      rw [List.map_cons, maskCh_of_not_slug hc2, List.dropWhile_cons_of_pos (by simp),
        List.dropWhile_cons_of_pos (by simp [hc2]), ih]

theorem collapseGo_false_eq_squeeze_mask :
    ∀ n l, List.length l ≤ n → collapseGo false l = squeeze (l.map maskCh) := by
  intro n
  induction n with
  | zero =>
    intro l hl
    have : l = [] := List.eq_nil_of_length_eq_zero (Nat.le_zero.1 hl)
    subst this
    rfl
  | succ n ih =>
    intro l hl
    cases l with
    | nil => rfl
    | cons c rest =>
      have hr : rest.length ≤ n := by
        simp only [List.length_cons] at hl
        omega
      by_cases hc : isSlugCh c = true
      · rw [collapseGo_cons_slug false hc, List.map_cons, maskCh_of_slug hc,
          squeeze_cons_of_ne _ (isSlugCh_ne_hyphen hc), ih rest hr]
      · have hc2 : isSlugCh c = false := by simpa using hc
        have hdw : (rest.dropWhile (fun x => !isSlugCh x)).length ≤ n :=
          Nat.le_trans (List.Sublist.length_le (List.dropWhile_sublist _)) hr
        rw [collapseGo_cons_bad_false hc2, collapseGo_true_eq, ih _ hdw,
          List.map_cons, maskCh_of_not_slug hc2, squeeze_hyphen_cons, dropWhile_map_maskCh]

theorem collapse_eq_squeeze_mask (l : List Char) :
    collapseGo false l = squeeze (l.map maskCh) :=
  collapseGo_false_eq_squeeze_mask l.length l (Nat.le_refl _)

/-! ## Lemmas: the collapsed list has no adjacent hyphens, so removing one
leading (resp. trailing) hyphen removes them all -/

/-- No two adjacent hyphens. -/
abbrev NoAdj (l : List Char) : Prop := List.Chain' (fun a b => ¬(a = '-' ∧ b = '-')) l

theorem collapseGo_true_head {l : List Char} {c : Char}
    (h : (collapseGo true l).head? = some c) : isSlugCh c = true := by
  induction l with
  | nil => simp [collapseGo] at h
  | cons a rest ih =>
    by_cases ha : isSlugCh a = true
    · rw [collapseGo_cons_slug true ha] at h
      simp at h
      exact h ▸ ha
    · have ha2 : isSlugCh a = false := by simpa using ha
      rw [collapseGo_cons_bad_true ha2] at h
      exact ih h

theorem collapseGo_noAdj : ∀ (b : Bool) (l : List Char), NoAdj (collapseGo b l) := by
  intro b l
  induction l generalizing b with
  | nil => cases b <;> exact List.chain'_nil
  | cons c rest ih =>
    by_cases hc : isSlugCh c = true
    · rw [collapseGo_cons_slug b hc]
      exact List.chain'_cons'.mpr ⟨fun y _ hcon => isSlugCh_ne_hyphen hc hcon.1, ih false⟩
    · have hc2 : isSlugCh c = false := by simpa using hc
      cases b with
      | true =>
        rw [collapseGo_cons_bad_true hc2]
        exact ih true
      | false =>
        rw [collapseGo_cons_bad_false hc2]
        refine List.chain'_cons'.mpr ⟨fun y hy hcon => ?_, ih true⟩
        exact isSlugCh_ne_hyphen (collapseGo_true_head (by simpa using hy)) hcon.2

theorem trimLeadOne_eq_dropWhile {l : List Char} (h : NoAdj l) :
    trimLeadOne l = l.dropWhile (· = '-') := by
  match l, h with
  | [], _ => rfl
  | c :: rest, h =>
    by_cases hc : c = '-'
    · subst hc
      rw [trimLeadOne, if_pos rfl, List.dropWhile_cons_of_pos (by simp)]
      match rest, h with
      | [], _ => rfl
      | b :: r, h =>
        have hb2 : b ≠ '-' := fun he => (List.chain'_cons'.1 h).1 b rfl ⟨rfl, he⟩
        rw [List.dropWhile_cons_of_neg (by simpa using hb2)]
    · rw [trimLeadOne, if_neg hc, List.dropWhile_cons_of_neg (by simpa using hc)]

theorem noAdj_reverse {l : List Char} (h : NoAdj l) : NoAdj l.reverse :=
  List.chain'_reverse.mpr (h.imp (fun _ _ hab hcon => hab ⟨hcon.2, hcon.1⟩))

theorem noAdj_trimLeadOne {l : List Char} (h : NoAdj l) : NoAdj (trimLeadOne l) := by
  match l, h with
  | [], h => exact h
  | c :: rest, h =>
    by_cases hc : c = '-'
    · rw [trimLeadOne, if_pos hc]
      exact (List.chain'_cons'.1 h).2
    · rw [trimLeadOne, if_neg hc]
      exact h

theorem trimTrailOne_eq_dropWhile {l : List Char} (h : NoAdj l) :
    trimTrailOne l = (l.reverse.dropWhile (· = '-')).reverse := by
  rw [trimTrailOne, trimLeadOne_eq_dropWhile (noAdj_reverse h)]

theorem slugify_eq_claimSlugify (t : String) : slugify t = claimSlugify t := by
  rw [slugify, claimSlugify]
  set low := t.data.map Char.toLower with hlow
  have h2 : NoAdj (collapseGo false low) := collapseGo_noAdj false low
  rw [trimTrailOne_eq_dropWhile (noAdj_trimLeadOne h2), trimLeadOne_eq_dropWhile h2,
    collapse_eq_squeeze_mask low]

theorem collapseGo_true_of_all_bad {l : List Char}
    (h : ∀ c ∈ l, isSlugCh c = false) : collapseGo true l = [] := by
  induction l with
  | nil => rfl
  | cons c rest ih =>
    rw [collapseGo_cons_bad_true (h c (List.mem_cons_self c rest))]
    exact ih (fun x hx => h x (List.mem_cons_of_mem c hx))

theorem slugify_of_no_alnum {t : String}
    (h : ∀ c ∈ t.data, isSlugCh (Char.toLower c) = false) : slugify t = "" := by
  rw [slugify]
  have hbad : ∀ c ∈ t.data.map Char.toLower, isSlugCh c = false := by
    intro c hc
    rcases List.mem_map.1 hc with ⟨a, ha, rfl⟩
    exact h a ha
  cases hl : t.data.map Char.toLower with
  | nil => rfl
  | cons c rest =>
    have hc : isSlugCh c = false := hbad c (hl ▸ List.mem_cons_self c rest)
    have hrest : ∀ x ∈ rest, isSlugCh x = false := fun x hx =>
      hbad x (hl ▸ List.mem_cons_of_mem c hx)
    rw [collapseGo_cons_bad_false hc, collapseGo_true_of_all_bad hrest]
    rfl

/-! ## Helper lemmas about boolean membership predicates -/

theorem beq_eq_decide (a b : String) : (a == b) = decide (a = b) := by
  by_cases h : a = b <;> simp [h]

theorem contains_eq_decide_mem (l : List String) (a : String) :
    l.contains a = decide (a ∈ l) := by
  cases hb : l.contains a with
  | true => simp [contains_eq_true_iff.1 hb]
  | false =>
    have : a ∉ l := fun hm => by rw [contains_eq_true_iff.2 hm] at hb; cases hb
    simp [this]

theorem default_statuses_contains (st : String) :
    ((["seeking", "in-progress"] : List String).contains st)
      = decide (st = "seeking" ∨ st = "in-progress") := by
  by_cases h1 : st = "seeking" <;> by_cases h2 : st = "in-progress" <;> simp [h1, h2]

/-! ## Claim C2 -/

/-- C2: projects.delete removes the Project record under the given id and
exactly the Collaboration, Update and Comment records whose projectId
equals that id; every record with a different projectId, and the whole
agent collection, is untouched. -/
theorem c2_delete_cascade_exact (db : DB) (id : String) :
    (projectsDelete db id).agents = db.agents ∧
    (∀ p : Project, p ∈ (projectsDelete db id).projects ↔ p ∈ db.projects ∧ p.id ≠ id) ∧
    (∀ c : Collaboration, c ∈ (projectsDelete db id).collaborations ↔
      c ∈ db.collaborations ∧ c.project_id ≠ id) ∧
    (∀ u : Update, u ∈ (projectsDelete db id).updates ↔ u ∈ db.updates ∧ u.project_id ≠ id) ∧
    (∀ c : Comment, c ∈ (projectsDelete db id).comments ↔ c ∈ db.comments ∧ c.project_id ≠ id) := by
  refine ⟨rfl, ?_, ?_, ?_, ?_⟩ <;> intro x <;>
    simp [projectsDelete, List.mem_filter]

/-! ## Claim C8 -/

/-- C8: agents.nameExists answers exactly case-insensitive name existence,
while agents.create by itself never rejects: whatever the store holds, a
create appends one more Agent record carrying precisely the requested
name, so a name differing from an existing one only in case is inserted
as a second record unless the caller pre-checks with nameExists. -/
theorem c8_nameExists_and_create (db : DB) (name : String) (d : AgentData)
    (id apiKey : String) (now : Nat) :
    (agentsNameExists db name = true ↔
      ∃ a ∈ db.agents, a.name.map Char.toLower = name.map Char.toLower) ∧
    (agentsCreate db d id apiKey now).2.agents
      = db.agents ++ [(agentsCreate db d id apiKey now).1] ∧
    (agentsCreate db d id apiKey now).1.name = d.name ∧
    (agentsCreate db d id apiKey now).2.agents.length = db.agents.length + 1 := by
  refine ⟨?_, rfl, rfl, by simp [agentsCreate]⟩
  simp [agentsNameExists, List.any_eq_true]

/-! ## Claim C10 -/

/-- C10: when the caller omits the category field or passes the empty
string, projects.create stores the default category other. -/
theorem c10_default_category (db : DB) (d : ProjectData) (id : String) (now : Nat)
    (h : d.category = none ∨ d.category = some "") :
    ((projectsCreate db d id now).1).category = "other" := by
  rcases h with h | h <;> simp [projectsCreate, strOrDefault, h]

theorem c10_default_category_witness :
    ((some "" : Option String) = none ∨ (some "" : Option String) = some "") ∧
    ((projectsCreate emptyDB ⟨"T", none, some "", none, none, "c"⟩ "p1" 0).1).category
      = "other" :=
  ⟨Or.inr rfl, c10_default_category emptyDB ⟨"T", none, some "", none, none, "c"⟩ "p1" 0
    (Or.inr rfl)⟩

/-! ## Claim C3 -/

/-- C3: the slug stored by projects.create is derived from the title by
lowercasing, collapsing non-alphanumeric runs to single hyphens, trimming
leading and trailing hyphens and truncating to 50 characters, and on a
collision with an existing slug the suffixes -1, -2, ... are tried in
order with the first free one winning (the base itself when it is free,
the case m = 0). -/
theorem c3_slug_derivation (db : DB) (d : ProjectData) (id : String) (now : Nat) :
    slugify d.title = claimSlugify d.title ∧
    (∃ m, (projectsCreate db d id now).1.slug = slugCand (claimSlugify d.title) m ∧
      slugCand (claimSlugify d.title) m ∉ projectSlugs db ∧
      ∀ i < m, slugCand (claimSlugify d.title) i ∈ projectSlugs db) := by
  refine ⟨slugify_eq_claimSlugify _, ?_⟩
  have hs : (projectsCreate db d id now).1.slug
      = uniqueSlug (claimSlugify d.title) (projectSlugs db) := by
    simp [projectsCreate, slugify_eq_claimSlugify]
  rw [hs]
  exact uniqueSlug_spec _ _

/-! ## Claim C9 -/

/-- C9: a title without a single alphanumeric character slugifies to the
empty string, so the created project receives the first free member of
the candidate chain of the empty base, whose elements are the empty
string, then -1, then -2, and so on: slugs are not guaranteed non-empty. -/
theorem c9_empty_slug (db : DB) (d : ProjectData) (id : String) (now : Nat) (n : Nat)
    (hno : ∀ c ∈ d.title.data, isSlugCh (Char.toLower c) = false)
    (hall : ∀ i < n, slugCand "" i ∈ projectSlugs db)
    (hfree : slugCand "" n ∉ projectSlugs db) :
    slugify d.title = "" ∧ slugCand "" 0 = "" ∧ slugCand "" 1 = "-1" ∧ slugCand "" 2 = "-2" ∧
    (projectsCreate db d id now).1.slug = slugCand "" n := by
  have h0 := slugify_of_no_alnum hno
  refine ⟨h0, rfl, by decide, by decide, ?_⟩
  have hs : (projectsCreate db d id now).1.slug = uniqueSlug "" (projectSlugs db) := by
    simp [projectsCreate, h0]
  rw [hs]
  exact uniqueSlug_eq_of_first_free hall hfree

theorem c9_empty_slug_witness :
    (∀ c ∈ ("!*!" : String).data, isSlugCh (Char.toLower c) = false) ∧
    (∀ i < 2, slugCand "" i ∈ projectSlugs c9DB) ∧
    slugCand "" 2 ∉ projectSlugs c9DB ∧
    (slugify "!*!" = "" ∧ slugCand "" 0 = "" ∧ slugCand "" 1 = "-1" ∧ slugCand "" 2 = "-2" ∧
      (projectsCreate c9DB ⟨"!*!", none, none, none, none, "c"⟩ "p3" 5).1.slug
        = slugCand "" 2) :=
  ⟨by decide, by decide, by decide,
    c9_empty_slug c9DB ⟨"!*!", none, none, none, none, "c"⟩ "p3" 5 2
      (by decide) (by decide) (by decide)⟩


/-! ## Claim C1 -/

/-- C1 counterexample: a reachable state with two equal slugs.  Two
projects are created (slugs a and b), then projects.update patches the
slug field of the second to a; the store accepts arbitrary partial fields,
so after the update the slug column reads a, a. -/
theorem c1_slug_unique_counterexample : Reach c1DB ∧ ¬ slugsUnique c1DB := by
  constructor
  · exact Reach.pupdate "p2" c1Patch 2
      (Reach.pcreate c1DataB "p2" 1
        (Reach.pcreate c1DataA "p1" 0 Reach.init (by decide)) (by decide))
  · decide

/-- C1 amended: slug uniqueness is an invariant of every operation
sequence in which no projects.update patch carries a slug field; creation
(identical titles included) and deletion always preserve it, and a
slug-free partial update leaves every slug unchanged. -/
theorem c1_slug_unique_keepSlug (db : DB) (h : ReachKeepSlug db) : slugsUnique db := by
  induction h with
  | init => simp [slugsUnique, projectSlugs, emptyDB]
  | acreate d id apiKey now hr hfresh ih =>
    simpa [slugsUnique, projectSlugs, agentsCreate] using ih
  | aupdate id p now hr ih =>
    simpa [slugsUnique, projectSlugs, agentsUpdate] using ih
  | pcreate d id now hr hfresh ih =>
    rename_i db2
    show (projectSlugs _).Nodup
    have hfree := uniqueSlug_not_taken (slugify d.title) (projectSlugs db2)
    simp only [projectSlugs, projectsCreate, List.map_append, List.map_cons, List.map_nil]
    refine List.nodup_append.mpr ⟨ih, List.nodup_singleton _, fun a ha hax => ?_⟩
    have haeq : a = uniqueSlug (slugify d.title) (projectSlugs db2) := by
      simpa [projectSlugs] using hax
    subst haeq
    exact hfree ha
  | pupdate id d now hr hslug ih =>
    rename_i db2
    show (projectSlugs _).Nodup
    have hmap : projectSlugs (projectsUpdate db2 id d now) = projectSlugs db2 := by
      simp only [projectSlugs, projectsUpdate, List.map_map]
      apply List.map_congr_left
      intro p _
      by_cases hp : p.id = id
      · simp [hp, applyProjectPatch, hslug]
      · simp [hp]
    rw [hmap]
    exact ih
  | pdelete id hr ih =>
    show (projectSlugs _).Nodup
    exact List.Nodup.sublist (List.Sublist.map _ (List.filter_sublist _)) ih
  | ccreate d id now hr hfresh ih =>
    simpa [slugsUnique, projectSlugs, collaborationsCreate] using ih
  | cupdate id p hr ih =>
    simpa [slugsUnique, projectSlugs, collaborationsUpdate] using ih
  | cdelete projectId agentId hr ih =>
    rename_i db2
    show (projectSlugs _).Nodup
    have : projectSlugs (collaborationsDelete db2 projectId agentId) = projectSlugs db2 := by
      rw [collaborationsDelete]
      cases collaborationsFindByProjectAndAgent db2 projectId agentId <;> rfl
    rw [this]
    exact ih
  | ucreate d id now hr hfresh ih =>
    simpa [slugsUnique, projectSlugs, updatesCreate] using ih
  | comcreate d id now hr hfresh ih =>
    simpa [slugsUnique, projectSlugs, commentsCreate] using ih

theorem c1_slug_unique_witness :
    ReachKeepSlug (projectsCreate (projectsCreate emptyDB c1DataA "p1" 0).2 c1DataA "p2" 1).2 ∧
    slugsUnique (projectsCreate (projectsCreate emptyDB c1DataA "p1" 0).2 c1DataA "p2" 1).2 :=
  have hreach : ReachKeepSlug
      (projectsCreate (projectsCreate emptyDB c1DataA "p1" 0).2 c1DataA "p2" 1).2 :=
    ReachKeepSlug.pcreate c1DataA "p2" 1
      (ReachKeepSlug.pcreate c1DataA "p1" 0 ReachKeepSlug.init (by decide)) (by decide)
  ⟨hreach, c1_slug_unique_keepSlug _ hreach⟩


/-! ## Claim C4 -/

/-- C4: with no filters, projects.findAll returns exactly the projects
whose status is seeking or in-progress; with a status filter string it
returns exactly the projects whose status belongs to the comma-separated
set in that string; both results are sorted newest-created-first. -/
theorem c4_findAll_status_filter (db : DB) (s : String) (hs : s ≠ "") :
    (projectsFindAll db {}).Perm
      (db.projects.filter (fun p => decide (p.status = "seeking" ∨ p.status = "in-progress"))) ∧
    (projectsFindAll db {}).Pairwise (fun a b => b.created_at ≤ a.created_at) ∧
    (projectsFindAll db { status := some s }).Perm
      (db.projects.filter (fun p => decide (p.status ∈ s.splitOn ","))) ∧
    (projectsFindAll db { status := some s }).Pairwise
      (fun a b => b.created_at ≤ a.created_at) := by
  have hdef1 : projectsFindAll db {} =
      (db.projects.filter
        (fun p => (["seeking", "in-progress"] : List String).contains p.status)).insertionSort
        projDesc := rfl
  have hdef2 : projectsFindAll db { status := some s } =
      (db.projects.filter (fun p => (s.splitOn ",").contains p.status)).insertionSort
        projDesc := by
    simp [projectsFindAll, hs]
  have hfc1 : db.projects.filter
        (fun p => (["seeking", "in-progress"] : List String).contains p.status)
      = db.projects.filter (fun p => decide (p.status = "seeking" ∨ p.status = "in-progress")) :=
    List.filter_congr (fun p _ => default_statuses_contains p.status)
  have hfc2 : db.projects.filter (fun p => (s.splitOn ",").contains p.status)
      = db.projects.filter (fun p => decide (p.status ∈ s.splitOn ",")) :=
    List.filter_congr (fun p _ => contains_eq_decide_mem _ _)
  refine ⟨?_, ?_, ?_, ?_⟩
  · rw [hdef1, hfc1]
    exact List.perm_insertionSort _ _
  · rw [hdef1]
    exact List.sorted_insertionSort projDesc _
  · rw [hdef2, hfc2]
    exact List.perm_insertionSort _ _
  · rw [hdef2]
    exact List.sorted_insertionSort projDesc _

theorem c4_findAll_witness :
    ("completed" : String) ≠ "" ∧
    ((projectsFindAll c4DB {}).Perm
      (c4DB.projects.filter
        (fun p => decide (p.status = "seeking" ∨ p.status = "in-progress"))) ∧
    (projectsFindAll c4DB {}).Pairwise (fun a b => b.created_at ≤ a.created_at) ∧
    (projectsFindAll c4DB { status := some "completed" }).Perm
      (c4DB.projects.filter (fun p => decide (p.status ∈ ("completed".splitOn ",")))) ∧
    (projectsFindAll c4DB { status := some "completed" }).Pairwise
      (fun a b => b.created_at ≤ a.created_at)) :=
  ⟨by decide, c4_findAll_status_filter c4DB "completed" (by decide)⟩

/-! ## Claim C5 -/

/-- C5 counterexample: the JS truthiness guard if (filters.limit) treats a
limit of zero as absent, so findAll with limit 0 returns every match
instead of the empty prefix the claim prescribes. -/
theorem c5_limit_counterexample :
    projectsFindAll c5DB { limit := some 0 } ≠
      (projectsFindAll c5DB { limit := none }).take 0 := by
  decide

/-- C5 amended: for a limit of n given in the filters, findAll returns the
first n elements of the unlimited (filtered, sorted) result when n is at
least one, all matches when n is at least their number, and ignores the
limit entirely when n is zero. -/
theorem c5_limit_amended (db : DB) (f : FindFilters) (n : Nat) (h : f.limit = some n) :
    (projectsFindAll db f = if n = 0 then projectsFindAll db { f with limit := none }
      else (projectsFindAll db { f with limit := none }).take n) ∧
    (n ≠ 0 → (projectsFindAll db { f with limit := none }).length ≤ n →
      projectsFindAll db f = projectsFindAll db { f with limit := none }) := by
  obtain ⟨c, st, sk, lim⟩ := f
  have h2 : lim = some n := h
  subst h2
  constructor
  · by_cases hn : n = 0 <;> simp [projectsFindAll, hn]
  · intro hn hlen
    rw [show projectsFindAll db ⟨c, st, sk, some n⟩
        = (projectsFindAll db ⟨c, st, sk, none⟩).take n from by simp [projectsFindAll, hn]]
    exact List.take_of_length_le hlen

theorem c5_limit_witness :
    ({ limit := some 1 } : FindFilters).limit = some 1 ∧
    projectsFindAll c5DB { limit := some 1 }
      = (projectsFindAll c5DB { ({ limit := some 1 } : FindFilters) with limit := none }).take 1 :=
  ⟨rfl, by
    have h := (c5_limit_amended c5DB { limit := some 1 } 1 rfl).1
    simpa using h⟩


/-! ## Claim C6 -/

theorem decOptStr_enc (o : Option String) : decOptStr (encOptStr o) = some o := by
  cases o <;> rfl

theorem decOptNat_enc (o : Option Nat) : decOptNat (encOptNat o) = some o := by
  cases o <;> rfl

theorem decStrListGo_enc (l : List String) : decStrListGo (l.map Json.str) = some l := by
  induction l with
  | nil => rfl
  | cons a l ih => simp [decStrListGo, ih]

theorem decStrList_enc (l : List String) : decStrList (encStrList l) = some l := by
  simp [decStrList, encStrList, decStrListGo_enc]

theorem decodeAgent_enc (a : Agent) : decodeAgent (encodeAgent a) = some a := by
  obtain ⟨id, name, dn, bio, email, av, sk, key, ca, ua⟩ := a
  simp [decodeAgent, encodeAgent, getField, decOptStr_enc, decStrList_enc]

theorem decodeProject_enc (p : Project) : decodeProject (encodeProject p) = some p := by
  obtain ⟨id, slug, title, de, cat, st, sk, mc, crid, ca, ua⟩ := p
  simp [decodeProject, encodeProject, getField, decOptStr_enc, decOptNat_enc, decStrList_enc]

theorem decodeCollaboration_enc (c : Collaboration) :
    decodeCollaboration (encodeCollaboration c) = some c := by
  obtain ⟨id, pid, aid, role, pi, st, ja⟩ := c
  simp [decodeCollaboration, encodeCollaboration, getField, decOptStr_enc]

theorem decodeUpdate_enc (u : Update) : decodeUpdate (encodeUpdate u) = some u := by
  obtain ⟨id, pid, aid, co, ca⟩ := u
  simp [decodeUpdate, encodeUpdate, getField]

theorem decodeComment_enc (c : Comment) : decodeComment (encodeComment c) = some c := by
  obtain ⟨id, pid, aid, co, ca⟩ := c
  simp [decodeComment, encodeComment, getField]

theorem decodeEntries_agents (l : List Agent) :
    decodeEntries decodeAgent (l.map (fun a => (a.id, encodeAgent a))) = some l := by
  induction l with
  | nil => rfl
  | cons a l ih => simp [decodeEntries, decodeAgent_enc, ih]

theorem decodeEntries_projects (l : List Project) :
    decodeEntries decodeProject (l.map (fun p => (p.id, encodeProject p))) = some l := by
  induction l with
  | nil => rfl
  | cons a l ih => simp [decodeEntries, decodeProject_enc, ih]

theorem decodeEntries_collaborations (l : List Collaboration) :
    decodeEntries decodeCollaboration (l.map (fun c => (c.id, encodeCollaboration c)))
      = some l := by
  induction l with
  | nil => rfl
  | cons a l ih => simp [decodeEntries, decodeCollaboration_enc, ih]

theorem decodeEntries_updates (l : List Update) :
    decodeEntries decodeUpdate (l.map (fun u => (u.id, encodeUpdate u))) = some l := by
  induction l with
  | nil => rfl
  | cons a l ih => simp [decodeEntries, decodeUpdate_enc, ih]

theorem decodeEntries_comments (l : List Comment) :
    decodeEntries decodeComment (l.map (fun c => (c.id, encodeComment c))) = some l := by
  induction l with
  | nil => rfl
  | cons a l ih => simp [decodeEntries, decodeComment_enc, ih]

theorem decodeDB_enc (db : DB) : decodeDB (encodeDB db) = some db := by
  obtain ⟨ags, prs, cls, ups, cms⟩ := db
  simp [decodeDB, encodeDB, getField, decodeEntries_agents, decodeEntries_projects,
    decodeEntries_collaborations, decodeEntries_updates, decodeEntries_comments]

theorem find?_append_fresh {α : Type} (p : α → Bool) (l : List α) (a : α)
    (hl : ∀ x ∈ l, p x = false) (ha : p a = true) : (l ++ [a]).find? p = some a := by
  rw [List.find?_append]
  have h1 : l.find? p = none := List.find?_eq_none.mpr (fun x hx => by simp [hl x hx])
  simp [h1, List.find?_cons, ha]

/-- C6: persisting the whole document and reloading it reproduces the
in-memory document exactly, and for each of the five collections a
freshly created entity can be re-queried by its id in the reloaded store
and every field comes back as created, none dropped or renamed. -/
theorem c6_save_load_roundtrip (db : DB) :
    decodeDB (encodeDB db) = some db ∧
    (∀ (d : AgentData) (id apiKey : String) (now : Nat), id ∉ db.agents.map Agent.id →
      ∃ db2, decodeDB (encodeDB (agentsCreate db d id apiKey now).2) = some db2 ∧
        agentsFindById db2 id = some (agentsCreate db d id apiKey now).1) ∧
    (∀ (d : ProjectData) (id : String) (now : Nat), id ∉ db.projects.map Project.id →
      ∃ db2, decodeDB (encodeDB (projectsCreate db d id now).2) = some db2 ∧
        projectsFindById db2 id = some (projectsCreate db d id now).1) ∧
    (∀ (d : CollaborationData) (id : String) (now : Nat),
        id ∉ db.collaborations.map Collaboration.id →
      ∃ db2, decodeDB (encodeDB (collaborationsCreate db d id now).2) = some db2 ∧
        collaborationsFindById db2 id = some (collaborationsCreate db d id now).1) ∧
    (∀ (d : UpdateData) (id : String) (now : Nat), id ∉ db.updates.map Update.id →
      ∃ db2, decodeDB (encodeDB (updatesCreate db d id now).2) = some db2 ∧
        updatesFindById db2 id = some (updatesCreate db d id now).1) ∧
    (∀ (d : CommentData) (id : String) (now : Nat), id ∉ db.comments.map Comment.id →
      ∃ db2, decodeDB (encodeDB (commentsCreate db d id now).2) = some db2 ∧
        commentsFindById db2 id = some (commentsCreate db d id now).1) := by
  refine ⟨decodeDB_enc db, ?_, ?_, ?_, ?_, ?_⟩
  · intro d id apiKey now hfresh
    refine ⟨_, decodeDB_enc _, ?_⟩
    show ((agentsCreate db d id apiKey now).2.agents.find? (fun a => a.id == id))
      = some (agentsCreate db d id apiKey now).1
    apply find?_append_fresh
    · intro x hx
      have hne : x.id ≠ id := fun he => hfresh (he ▸ List.mem_map_of_mem _ hx)
      simp [hne]
    · simp [agentsCreate]
  · intro d id now hfresh
    refine ⟨_, decodeDB_enc _, ?_⟩
    show ((projectsCreate db d id now).2.projects.find? (fun p => p.id == id))
      = some (projectsCreate db d id now).1
    apply find?_append_fresh
    · intro x hx
      have hne : x.id ≠ id := fun he => hfresh (he ▸ List.mem_map_of_mem _ hx)
      simp [hne]
    · simp [projectsCreate]
  · intro d id now hfresh
    refine ⟨_, decodeDB_enc _, ?_⟩
    show ((collaborationsCreate db d id now).2.collaborations.find? (fun c => c.id == id))
      = some (collaborationsCreate db d id now).1
    apply find?_append_fresh
    · intro x hx
      have hne : x.id ≠ id := fun he => hfresh (he ▸ List.mem_map_of_mem _ hx)
      simp [hne]
    · simp [collaborationsCreate]
  · intro d id now hfresh
    refine ⟨_, decodeDB_enc _, ?_⟩
    show ((updatesCreate db d id now).2.updates.find? (fun u => u.id == id))
      = some (updatesCreate db d id now).1
    apply find?_append_fresh
    · intro x hx
      have hne : x.id ≠ id := fun he => hfresh (he ▸ List.mem_map_of_mem _ hx)
      simp [hne]
    · simp [updatesCreate]
  · intro d id now hfresh
    refine ⟨_, decodeDB_enc _, ?_⟩
    show ((commentsCreate db d id now).2.comments.find? (fun c => c.id == id))
      = some (commentsCreate db d id now).1
    apply find?_append_fresh
    · intro x hx
      have hne : x.id ≠ id := fun he => hfresh (he ▸ List.mem_map_of_mem _ hx)
      simp [hne]
    · simp [commentsCreate]

theorem c6_roundtrip_witness :
    ("a1" ∉ emptyDB.agents.map Agent.id) ∧
    (∃ db2, decodeDB (encodeDB
        (agentsCreate emptyDB ⟨"ada", "Ada", none, none, none, none⟩ "a1" "k1" 0).2) = some db2 ∧
      agentsFindById db2 "a1"
        = some (agentsCreate emptyDB ⟨"ada", "Ada", none, none, none, none⟩ "a1" "k1" 0).1) ∧
    (∃ db2, decodeDB (encodeDB
        (projectsCreate emptyDB ⟨"T", none, none, none, none, "a1"⟩ "p1" 1).2) = some db2 ∧
      projectsFindById db2 "p1"
        = some (projectsCreate emptyDB ⟨"T", none, none, none, none, "a1"⟩ "p1" 1).1) :=
  ⟨by decide,
    (c6_save_load_roundtrip emptyDB).2.1 ⟨"ada", "Ada", none, none, none, none⟩ "a1" "k1" 0
      (by decide),
    (c6_save_load_roundtrip emptyDB).2.2.1 ⟨"T", none, none, none, none, "a1"⟩ "p1" 1
      (by decide)⟩


/-! ## Claim C7 -/

/-- C7: updates.findByProject returns exactly the update rows of the
given project sorted newest-first, and comments.findByProject returns
exactly the comment rows of the given project sorted oldest-first. -/
theorem c7_findByProject_order (db : DB) (pid : String) :
    (updatesFindByProject db pid).Perm
      (db.updates.filter (fun u => decide (u.project_id = pid))) ∧
    (updatesFindByProject db pid).Pairwise (fun a b => b.created_at ≤ a.created_at) ∧
    (commentsFindByProject db pid).Perm
      (db.comments.filter (fun c => decide (c.project_id = pid))) ∧
    (commentsFindByProject db pid).Pairwise (fun a b => a.created_at ≤ b.created_at) := by
  have hfc1 : db.updates.filter (fun u => u.project_id == pid)
      = db.updates.filter (fun u => decide (u.project_id = pid)) :=
    List.filter_congr (fun u _ => beq_eq_decide _ _)
  have hfc2 : db.comments.filter (fun c => c.project_id == pid)
      = db.comments.filter (fun c => decide (c.project_id = pid)) :=
    List.filter_congr (fun c _ => beq_eq_decide _ _)
  refine ⟨?_, ?_, ?_, ?_⟩
  · rw [updatesFindByProject, hfc1]
    exact List.perm_insertionSort _ _
  · exact List.sorted_insertionSort updDesc _
  · rw [commentsFindByProject, hfc2]
    exact List.perm_insertionSort _ _
  · exact List.sorted_insertionSort comAsc _


end TH
